import Mathlib

/-!
Verification development for the AI request orchestration subsystem of the
Aoede repository (`app/services/ai_model.py`, `app/services/chunk_management.py`,
`app/core/config.py`).

Modelling conventions for this shallow embedding:
* Python strings are modelled as `List Char`; slicing, `split`, `strip`,
  `join` are re-implemented below with Python's semantics.
* The external `tiktoken` tokenizer is not repository code.  Token counting
  is therefore a parameter `tc : List Char → Nat` of every definition that
  calls `TokenCounter.count_tokens`; the repository's own documented fallback
  (`max(1, len(text) // 4)`, `ai_model.py` line 154) is embedded as
  `tcHeuristic` and is used to instantiate the parameter in concrete runs.
* The `hashlib.md5` digest used only inside chunk-id strings is likewise a
  parameter `md5 : List Char → String` (ids never influence control flow).
* Python `float` products appear only in `int(max_tokens * chars_per_token
  * 0.9)` and `int(CHUNK_OVERLAP * chars_per_token)`; they are modelled by
  exact integer arithmetic (`int()` truncation = `Int.tdiv` / `Nat.div`).
* Pydantic `Settings` values (`MAX_TOKENS_PER_REQUEST`, `TOKEN_SAFETY_BUFFER`,
  `CHUNK_OVERLAP`) are environment-configurable, so they are fields of a
  `Settings` structure; `defaultSettings` holds the defaults from
  `app/core/config.py`.
* The `while` loop of `_token_based_chunking` can diverge (its cut width can
  be ≤ 0); it is embedded fuel-indexed, `none` standing for a run that does
  not finish within the given number of iterations.
* Free-form `metadata` dictionaries and Azure tool-call objects carry no
  claim-relevant data and are not modelled.
-/

/-- Python `str.isspace` on the ASCII whitespace characters that occur in
this code base (regex `\s` likewise). -/
def isPySpace (c : Char) : Bool :=
  c == ' ' || c == '\t' || c == '\n' || c == '\r' || c == '\x0b' || c == '\x0c'

/-- Python `str.lstrip()`. -/
def pyLStrip (l : List Char) : List Char := l.dropWhile isPySpace

/-- Python `str.strip()`. -/
def pyStrip (l : List Char) : List Char :=
  ((l.dropWhile isPySpace).reverse.dropWhile isPySpace).reverse

/-- Embeds `sep.join parts` for Python strings. -/
def joinSep (sep : List Char) : List (List Char) → List Char
  | [] => []
  | [p] => p
  | p :: ps => p ++ sep ++ joinSep sep ps

theorem dropWhileLenLe (p : α → Bool) (l : List α) : (l.dropWhile p).length ≤ l.length := by
  induction l with
  | nil => simp
  | cons a as ih =>
    by_cases h : p a
    · simp only [List.dropWhile_cons, h, if_true, List.length_cons]; omega
    · simp [List.dropWhile_cons, h]

/-- Python `str.split(sep)` for a non-empty separator: greedy left-to-right
scan for the separator.  The recursion is fuel-indexed so that the kernel
can evaluate it; one unit of fuel covers at least one consumed character,
so `l.length` units (supplied by `splitSeq`) always suffice and the
fuel-exhaustion arm is unreachable. -/
def splitSeqGo (sep : List Char) : Nat → List Char → List (List Char)
  | _, [] => [[]]
  | 0, l => [l]
  | fuel + 1, c :: rest =>
    if sep ≠ [] ∧ sep.isPrefixOf (c :: rest) then
      [] :: splitSeqGo sep fuel (List.drop sep.length (c :: rest))
    else
      match splitSeqGo sep fuel rest with
      | [] => [[c]]
      | p :: ps => (c :: p) :: ps

/-- Python `str.split(sep)` (non-empty separator). -/
def splitSeq (sep l : List Char) : List (List Char) :=
  splitSeqGo sep l.length l

/-- Embeds `re.split(r'(?<=[.!?])\s+', content)`: cut after a sentence-ending
punctuation character that is immediately followed by whitespace, consuming
the whole whitespace run.  Fuel-indexed like `splitSeqGo`; `content.length`
units always suffice. -/
def sentGo : Nat → List Char → List Char → List (List Char)
  | _, [], acc => [acc.reverse]
  | 0, l, acc => [acc.reverse ++ l]
  | fuel + 1, c :: rest, acc =>
    if (c == '.' || c == '!' || c == '?') &&
        (match rest with | r :: _ => isPySpace r | [] => false) then
      (acc.reverse ++ [c]) :: sentGo fuel (rest.dropWhile isPySpace) []
    else
      sentGo fuel rest (c :: acc)

/-- Sentence splitting as used by `_sentence_based_chunking` and
`_merge_text_responses`. -/
def splitSentences (content : List Char) : List (List Char) :=
  sentGo content.length content []

/-- Convenience: characters of a string literal. -/
def chars (s : String) : List Char := s.data

/-- The repository's fallback token estimate `max(1, len(text) // 4)`
(`ai_model.py`, `TokenCounter.count_tokens` exception branch). -/
def tcHeuristic (l : List Char) : Nat := max 1 (l.length / 4)

/-- Stable insertion used to model Python's stable `sorted`/`list.sort`:
an element is inserted after all elements whose key is ≤ its own. -/
def insertStable (le : α → α → Bool) (x : α) : List α → List α
  | [] => [x]
  | y :: ys => if le y x then y :: insertStable le x ys else x :: y :: ys

/-- Stable sort (insertion sort), modelling Python `sorted(..., key=...)`. -/
def stableSort (le : α → α → Bool) (l : List α) : List α :=
  l.foldl (fun acc x => insertStable le x acc) []

/-! ## Configuration (`app/core/config.py`) -/

/-- Environment-configurable settings used by the chunking pipeline
(`Settings` in `app/core/config.py`). -/
structure Settings where
  MAX_TOKENS_PER_REQUEST : Int
  TOKEN_SAFETY_BUFFER : Int
  CHUNK_OVERLAP : Nat
deriving DecidableEq, Repr

/-- The defaults declared in `app/core/config.py`. -/
def defaultSettings : Settings :=
  { MAX_TOKENS_PER_REQUEST := 4000, TOKEN_SAFETY_BUFFER := 200, CHUNK_OVERLAP := 100 }

/-- Per-model static configuration record (`MODEL_CONFIGS` values). -/
structure ModelConfig where
  type : String
  max_tokens : Nat
  temperature : ℚ
  priority : Nat
deriving DecidableEq, Repr

/-- Embeds `MODEL_CONFIGS` of `app/core/config.py`, in dict insertion order. -/
def MODEL_CONFIGS : List (String × ModelConfig) :=
  [("mistral-ai/Codestral-2501", ⟨"code_generation", 4000, 1/10, 1⟩),
   ("openai/gpt-4.1", ⟨"general_purpose", 4000, 3/10, 2⟩),
   ("openai/gpt-4o", ⟨"advanced_reasoning", 4000, 2/10, 1⟩),
   ("cohere/cohere-command-a", ⟨"text_processing", 4000, 4/10, 3⟩)]

/-! ## Data model (`app/services/ai_model.py`) -/

/-- Embeds `ChunkStrategy` enum. -/
inductive ChunkStrategy where
  | semantic | function_based | sentence_based | token_based | hybrid
deriving DecidableEq, Repr

/-- Embeds `ModelCapability` enum. -/
inductive ModelCapability where
  | code_generation | code_analysis | text_processing | reasoning | tool_calling
deriving DecidableEq, Repr

/-- Embeds `ChunkContext` dataclass (the free-form `metadata` dict is not modelled;
no claim reads it). -/
structure ChunkContext where
  chunk_id : String
  content : List Char
  chunk_index : Nat
  total_chunks : Nat
  overlap_content : List Char := []
  strategy_used : ChunkStrategy := ChunkStrategy.token_based
deriving DecidableEq, Repr

/-- Embeds `ModelResponse` dataclass (Azure tool-call objects and the metadata dict
are not modelled; `response_time` floats are modelled as rationals). -/
structure ModelResponse where
  content : List Char
  model : String
  input_tokens : Nat
  output_tokens : Nat
  total_tokens : Nat
  response_time : ℚ
  success : Bool
  chunk_id : Option String := none
  finish_reason : Option String := none
  error : Option String := none
deriving DecidableEq, Repr

/-- Embeds `AggregatedResponse` dataclass (tool calls and metadata not modelled). -/
structure AggregatedResponse where
  content : List Char
  model : String
  total_input_tokens : Nat
  total_output_tokens : Nat
  total_response_time : ℚ
  chunk_count : Nat
  success : Bool
  failed_chunks : List String := []
deriving DecidableEq, Repr

/-! ## ChunkManager (`app/services/ai_model.py`) -/

/-- Embeds `ChunkManager._generate_chunk_id`: `f"chunk_{index}_{md5(content)[:8]}"`,
with the md5 digest an abstract parameter. -/
def generate_chunk_id (md5 : List Char → String) (content : List Char) (index : Nat) : String :=
  "chunk_" ++ toString index ++ "_" ++ md5 content

/-- Embeds `ChunkManager._extract_overlap`: last `n` lines of a chunk (the whole
chunk when it has at most `n` lines), joined by newlines. -/
def extract_overlap (lines : List (List Char)) (overlap_lines : Nat) : List Char :=
  if lines.length ≤ overlap_lines then joinSep (chars "\n") lines
  else joinSep (chars "\n") (lines.drop (lines.length - overlap_lines))

/-- Embeds `ChunkManager._extract_sentence_overlap`: last `n` sentences joined by
spaces (whole list when it has at most `n` sentences). -/
def extract_sentence_overlap (sentences : List (List Char)) (overlap_count : Nat) : List Char :=
  if sentences.length ≤ overlap_count then joinSep (chars " ") sentences
  else joinSep (chars " ") (sentences.drop (sentences.length - overlap_count))

/-- The cut width of `_token_based_chunking`:
`int(max_tokens * (len(content)/max(total_tokens,1)) * 0.9)` computed
exactly (`int()` truncates toward zero, `Int.tdiv`). -/
def chunkSizeChars (tc : List Char → Nat) (max_tokens : Int) (content : List Char) : Int :=
  Int.tdiv (max_tokens * content.length * 9) (10 * (max (tc content) 1))

/-- Embeds `chunkSizeChars` clamped to `Nat` (a non-positive width makes the Python
loop diverge; see `token_based_chunking`). -/
def chunkSizeNat (tc : List Char → Nat) (max_tokens : Int) (content : List Char) : Nat :=
  (chunkSizeChars tc max_tokens content).toNat

/-- Embeds `overlap_chars = int(CHUNK_OVERLAP * chars_per_token)` of
`_token_based_chunking`, computed exactly. -/
def overlapCharsNat (tc : List Char → Nat) (chunk_overlap : Nat) (content : List Char) : Nat :=
  chunk_overlap * content.length / max (tc content) 1

/-- The break-point search of `_token_based_chunking`:
`for i in range(min(100, end - start)): if content[end - i].isspace(): end -= i; break`.
All probed indices are < `content.length` at every call site, so the `getD`
default (a non-space character) is never consulted. -/
def snapEnd (content : List Char) (start e : Nat) : Nat :=
  match (List.range (min 100 (e - start))).find? (fun i => isPySpace (content.getD (e - i) 'a')) with
  | some i => e - i
  | none => e

/-- One iteration's final cut position: `end = min(start + chunk_size_chars,
len(content))`, snapped back to a whitespace boundary when it is not already
the end of the content. -/
def tokenStepEnd (size : Nat) (content : List Char) (start : Nat) : Nat :=
  let e0 := min (start + size) content.length
  if e0 < content.length then snapEnd content start e0 else e0

/-- The `ChunkContext` one iteration of `_token_based_chunking` appends:
`content[start:end]`, prefixed by the recorded overlap
`content[max(0, start - overlap_chars):start]` when `start > 0` and
`overlap_chars > 0`. -/
def tokenChunk (md5 : List Char → String) (oc : Nat) (content : List Char)
    (start e idx : Nat) : ChunkContext :=
  let body := (content.drop start).take (e - start)
  let ov := if 0 < start ∧ 0 < oc then
      (content.drop (start - oc)).take (start - (start - oc)) else []
  { chunk_id := generate_chunk_id md5 (ov ++ body) idx
    content := ov ++ body
    chunk_index := idx
    total_chunks := 0
    overlap_content := ov
    strategy_used := ChunkStrategy.token_based }

/-- One `while start < len(content)` pass of `_token_based_chunking`,
fuel-indexed: `none` means the loop did not finish within `fuel` iterations
(each iteration consumes one unit of fuel). -/
def tokenLoop (md5 : List Char → String) (size oc : Nat) (content : List Char) :
    Nat → Nat → List ChunkContext → Option (List ChunkContext)
  | fuel, start, acc =>
    if start < content.length then
      match fuel with
      | 0 => none
      | fuel + 1 =>
        tokenLoop md5 size oc content fuel (tokenStepEnd size content start)
          (acc ++ [tokenChunk md5 oc content start (tokenStepEnd size content start) acc.length])
    else some acc

/-- Embeds `ChunkManager._token_based_chunking`.  The Python loop advances at least
one character per iteration whenever its cut width is ≥ 1, so
`content.length` units of fuel suffice; with a non-positive cut width the
Python loop never terminates, which the embedding reports as `none`. -/
def token_based_chunking (tc : List Char → Nat) (md5 : List Char → String)
    (chunk_overlap : Nat) (max_tokens : Int) (content : List Char) :
    Option (List ChunkContext) :=
  tokenLoop md5 (chunkSizeNat tc max_tokens content)
    (overlapCharsNat tc chunk_overlap content) content content.length 0 []

/-- Helper building a strategy-tagged `ChunkContext` the way the chunking
methods construct them (`total_chunks=0`, later fixed by post-processing). -/
def mkStrategyChunk (md5 : List Char → String) (strategy : ChunkStrategy)
    (content : List Char) (index : Nat) (ov : List Char) : ChunkContext :=
  { chunk_id := generate_chunk_id md5 content index
    content := content
    chunk_index := index
    total_chunks := 0
    overlap_content := ov
    strategy_used := strategy }

/-- The sentence loop of `ChunkManager._sentence_based_chunking`, one case
per Python branch.  State: remaining sentences, chunks built so far, the
current chunk's sentences and their accumulated token count.  Oversized
sentences are delegated to `token_based_chunking` (whose possible
divergence propagates as `none`). -/
def sentLoop (tc : List Char → Nat) (md5 : List Char → String) (chunk_overlap : Nat)
    (max_tokens : Int) :
    List (List Char) → List ChunkContext → List (List Char) → Nat →
    Option (List ChunkContext)
  | [], acc, cur, _ =>
    if cur ≠ [] then
      some (acc ++ [mkStrategyChunk md5 ChunkStrategy.sentence_based
        (joinSep (chars " ") cur) acc.length []])
    else some acc
  | s :: rest, acc, cur, curT =>
    let st := tc (s ++ [' '])
    if (st : Int) > max_tokens then
      let acc' := if cur ≠ [] then
          acc ++ [mkStrategyChunk md5 ChunkStrategy.sentence_based
            (joinSep (chars " ") cur) acc.length []]
        else acc
      match token_based_chunking tc md5 chunk_overlap max_tokens s with
      | none => none
      | some wcs => sentLoop tc md5 chunk_overlap max_tokens rest (acc' ++ wcs) [] 0
    else
      if (curT + st : Int) > max_tokens ∧ cur ≠ [] then
        let cc := joinSep (chars " ") cur
        let ovl := extract_sentence_overlap cur 1
        let acc' := acc ++ [mkStrategyChunk md5 ChunkStrategy.sentence_based cc acc.length ovl]
        if ovl ≠ [] then
          sentLoop tc md5 chunk_overlap max_tokens rest acc' ([ovl] ++ [s]) (tc ovl + st)
        else
          sentLoop tc md5 chunk_overlap max_tokens rest acc' [s] st
      else
        sentLoop tc md5 chunk_overlap max_tokens rest acc (cur ++ [s]) (curT + st)

/-- Embeds `ChunkManager._sentence_based_chunking` (the unused `context` argument
is dropped: the Python method never reads it). -/
def sentence_based_chunking (tc : List Char → Nat) (md5 : List Char → String)
    (chunk_overlap : Nat) (max_tokens : Int) (content : List Char) :
    Option (List ChunkContext) :=
  sentLoop tc md5 chunk_overlap max_tokens (splitSentences content) [] [] 0

/-- The paragraph loop of `ChunkManager._semantic_chunking`.  Oversized
paragraphs are delegated to `sentence_based_chunking` and the resulting
chunks are appended as-is (`chunks.extend(sentence_chunks)`). -/
def semLoop (tc : List Char → Nat) (md5 : List Char → String) (chunk_overlap : Nat)
    (max_tokens : Int) :
    List (List Char) → List ChunkContext → List (List Char) → Nat →
    Option (List ChunkContext)
  | [], acc, cur, _ =>
    if cur ≠ [] then
      some (acc ++ [mkStrategyChunk md5 ChunkStrategy.semantic
        (joinSep (chars "\n\n") cur) acc.length []])
    else some acc
  | p :: rest, acc, cur, curT =>
    let pt := tc (p ++ chars "\n\n")
    if (pt : Int) > max_tokens then
      let acc' := if cur ≠ [] then
          acc ++ [mkStrategyChunk md5 ChunkStrategy.semantic
            (joinSep (chars "\n\n") cur) acc.length []]
        else acc
      match sentence_based_chunking tc md5 chunk_overlap max_tokens p with
      | none => none
      | some scs => semLoop tc md5 chunk_overlap max_tokens rest (acc' ++ scs) [] 0
    else
      if (curT + pt : Int) > max_tokens ∧ cur ≠ [] then
        let acc' := acc ++ [mkStrategyChunk md5 ChunkStrategy.semantic
          (joinSep (chars "\n\n") cur) acc.length []]
        semLoop tc md5 chunk_overlap max_tokens rest acc' [p] pt
      else
        semLoop tc md5 chunk_overlap max_tokens rest acc (cur ++ [p]) (curT + pt)

/-- Embeds `ChunkManager._semantic_chunking`. -/
def semantic_chunking (tc : List Char → Nat) (md5 : List Char → String)
    (chunk_overlap : Nat) (max_tokens : Int) (content : List Char) :
    Option (List ChunkContext) :=
  semLoop tc md5 chunk_overlap max_tokens (splitSeq (chars "\n\n") content) [] [] 0

/-! ### Line-prefix regexes of `code_patterns` (`ChunkManager.__init__`) -/

/-- Embeds `\w` of Python regexes, ASCII range (the source patterns only meet
ASCII identifiers). -/
def isWordChar (c : Char) : Bool := c.isAlphanum || c == '_'

/-- Consume one-or-more regex `\s`. -/
def eatWS1 : List Char → Option (List Char)
  | c :: rest => if isPySpace c then some (rest.dropWhile isPySpace) else none
  | [] => none

/-- Consume zero-or-more regex `\s`. -/
def eatWS (l : List Char) : List Char := l.dropWhile isPySpace

/-- Consume one-or-more regex `\w`. -/
def eatWord1 : List Char → Option (List Char)
  | c :: rest => if isWordChar c then some (rest.dropWhile isWordChar) else none
  | [] => none

/-- Consume a literal. -/
def eatLit (lit l : List Char) : Option (List Char) :=
  if lit.isPrefixOf l then some (l.drop lit.length) else none

/-- Embeds `re.match(r'^def\s+\w+\s*\(', s)` as a Boolean. -/
def rePyDef (l : List Char) : Bool :=
  match (((eatLit (chars "def") l).bind eatWS1).bind eatWord1) with
  | some r => (eatWS r).head? == some '('
  | none => false

/-- Embeds `re.match(r'^function\s+\w+\s*\(', s)`. -/
def reJsFunction (l : List Char) : Bool :=
  match (((eatLit (chars "function") l).bind eatWS1).bind eatWord1) with
  | some r => (eatWS r).head? == some '('
  | none => false

/-- Embeds `re.match(r'^async\s+function\s+\w+\s*\(', s)`. -/
def reAsyncJs (l : List Char) : Bool :=
  match (((((eatLit (chars "async") l).bind eatWS1).bind
      (eatLit (chars "function"))).bind eatWS1).bind eatWord1) with
  | some r => (eatWS r).head? == some '('
  | none => false

/-- Embeds `re.match(r'^\w+\s*:\s*function\s*\(', s)`. -/
def reObjMethod (l : List Char) : Bool :=
  match eatWord1 l with
  | some r =>
    match eatLit [':'] (eatWS r) with
    | some r =>
      match eatLit (chars "function") (eatWS r) with
      | some r => (eatWS r).head? == some '('
      | none => false
    | none => false
  | none => false

/-- Embeds `re.match(r'^class\s+\w+', s)`. -/
def reClassDef (l : List Char) : Bool :=
  (((eatLit (chars "class") l).bind eatWS1).bind eatWord1).isSome

/-- Embeds `any(re.match(p, line.strip()) for p in code_patterns['function_start'])`. -/
def is_function_start (stripped : List Char) : Bool :=
  rePyDef stripped || reJsFunction stripped || reAsyncJs stripped ||
    reObjMethod stripped || reClassDef stripped

/-- Embeds `any(re.match(p, line.strip()) for p in code_patterns['block_end'])`,
patterns `^\s*}` and `^\s*$`. -/
def is_block_end (stripped : List Char) : Bool :=
  (eatWS stripped).head? == some '}' || (eatWS stripped).isEmpty

/-- The `in_function`/`function_depth` update at the top of each iteration
of `_function_based_chunking` (`if is_function_start ... elif is_block_end
and in_function ...`). -/
def funUpd (ifs ibe inF : Bool) (depth : Nat) : Bool × Nat :=
  if ifs then (true, depth + 1)
  else if ibe && inF then (if depth - 1 = 0 then (false, 0) else (inF, depth - 1))
  else (inF, depth)

/-- The line loop of `ChunkManager._function_based_chunking`.  State:
remaining lines, chunks so far, current chunk lines, accumulated tokens,
`in_function` flag, `function_depth`.  `should_split` uses the updated
flag/depth, as in the source. -/
def funLoop (tc : List Char → Nat) (md5 : List Char → String) (max_tokens : Int) :
    List (List Char) → List ChunkContext → List (List Char) → Nat → Bool → Nat →
    List ChunkContext
  | [], acc, cur, _, _, _ =>
    if cur ≠ [] then
      acc ++ [mkStrategyChunk md5 ChunkStrategy.function_based
        (joinSep (chars "\n") cur) acc.length []]
    else acc
  | line :: rest, acc, cur, curT, inF, depth =>
    if ((curT + tc (line ++ ['\n']) : Int) > max_tokens) && !cur.isEmpty &&
        (!(funUpd (is_function_start (pyStrip line)) (is_block_end (pyStrip line)) inF depth).1
          || is_block_end (pyStrip line)) then
      if extract_overlap cur 3 ≠ [] then
        funLoop tc md5 max_tokens rest
          (acc ++ [mkStrategyChunk md5 ChunkStrategy.function_based
            (joinSep (chars "\n") cur) acc.length (extract_overlap cur 3)])
          (splitSeq (chars "\n") (extract_overlap cur 3) ++ [line])
          (tc (extract_overlap cur 3) + tc (line ++ ['\n']))
          (funUpd (is_function_start (pyStrip line)) (is_block_end (pyStrip line)) inF depth).1
          (funUpd (is_function_start (pyStrip line)) (is_block_end (pyStrip line)) inF depth).2
      else
        funLoop tc md5 max_tokens rest
          (acc ++ [mkStrategyChunk md5 ChunkStrategy.function_based
            (joinSep (chars "\n") cur) acc.length (extract_overlap cur 3)])
          [line] (tc (line ++ ['\n']))
          (funUpd (is_function_start (pyStrip line)) (is_block_end (pyStrip line)) inF depth).1
          (funUpd (is_function_start (pyStrip line)) (is_block_end (pyStrip line)) inF depth).2
    else
      funLoop tc md5 max_tokens rest acc (cur ++ [line]) (curT + tc (line ++ ['\n']))
        (funUpd (is_function_start (pyStrip line)) (is_block_end (pyStrip line)) inF depth).1
        (funUpd (is_function_start (pyStrip line)) (is_block_end (pyStrip line)) inF depth).2

/-- Embeds `ChunkManager._function_based_chunking`. -/
def function_based_chunking (tc : List Char → Nat) (md5 : List Char → String)
    (max_tokens : Int) (content : List Char) : List ChunkContext :=
  funLoop tc md5 max_tokens (splitSeq (chars "\n") content) [] [] 0 false 0

/-- Substring test (Python's `in` on strings). -/
def containsSub (needle : List Char) : List Char → Bool
  | [] => needle.isEmpty
  | c :: rest => needle.isPrefixOf (c :: rest) || containsSub needle rest

/-- The `code_indicators` vocabulary of `ChunkManager._is_code`. -/
def code_indicators : List (List Char) :=
  [chars "def ", chars "function ", chars "class ", chars "import ", chars "from ",
   chars "const ", chars "let ", chars "var ", chars "return ", chars "if (",
   chars "for (", chars "while (", chars "=>", chars "\x7b", chars "\x7d", chars ";",
   chars "//", chars "/*", chars "*/", chars "#include", chars "package ",
   chars "namespace ", chars "using ", chars "public class", chars "private ",
   chars "protected "]

/-- Embeds `ChunkManager._is_code`: at least 20 % of the indicator vocabulary occurs
in the lower-cased content (`count >= 26 * 0.2`, i.e. `count ≥ 6`; scaled to
exact integers here). -/
def is_code (content : List Char) : Bool :=
  let lower := content.map Char.toLower
  let code_count := (code_indicators.filter (fun ind => containsSub ind lower)).length
  decide (code_count * 10 ≥ code_indicators.length * 2)

/-- The `structure_indicators` of `ChunkManager._is_structured_text`. -/
def structure_indicators : List (List Char) :=
  [chars "# ", chars "## ", chars "### ", chars "\n\n", chars "- ", chars "* ",
   chars "1. ", chars "---", chars "==="]

/-- Embeds `ChunkManager._is_structured_text`. -/
def is_structured_text (content : List Char) : Bool :=
  structure_indicators.any (fun ind => containsSub ind content)

/-- Embeds `ChunkManager._hybrid_chunking`: classify, then delegate. -/
def hybrid_chunking (tc : List Char → Nat) (md5 : List Char → String)
    (chunk_overlap : Nat) (max_tokens : Int) (content : List Char) :
    Option (List ChunkContext) :=
  if is_code content then some (function_based_chunking tc md5 max_tokens content)
  else if is_structured_text content then
    semantic_chunking tc md5 chunk_overlap max_tokens content
  else sentence_based_chunking tc md5 chunk_overlap max_tokens content

/-- Embeds `ChunkManager._apply_chunking_strategy`. -/
def apply_chunking_strategy (tc : List Char → Nat) (md5 : List Char → String)
    (chunk_overlap : Nat) (max_tokens : Int) (strategy : ChunkStrategy)
    (content : List Char) : Option (List ChunkContext) :=
  match strategy with
  | ChunkStrategy.hybrid => hybrid_chunking tc md5 chunk_overlap max_tokens content
  | ChunkStrategy.function_based => some (function_based_chunking tc md5 max_tokens content)
  | ChunkStrategy.semantic => semantic_chunking tc md5 chunk_overlap max_tokens content
  | ChunkStrategy.sentence_based => sentence_based_chunking tc md5 chunk_overlap max_tokens content
  | ChunkStrategy.token_based => token_based_chunking tc md5 chunk_overlap max_tokens content

/-- Embeds `ChunkManager._post_process_chunks`: stamp the final `total_chunks` on
every chunk (the metadata update is not modelled). -/
def post_process_chunks (chunks : List ChunkContext) : List ChunkContext :=
  chunks.map (fun c => { c with total_chunks := chunks.length })

/-- Embeds `max_content_tokens` computed at the top of `ChunkManager.chunk_content`:
`MAX_TOKENS_PER_REQUEST - TOKEN_SAFETY_BUFFER - tokens(context) - 100`. -/
def availableTokens (cfg : Settings) (tc : List Char → Nat) (context : List Char) : Int :=
  cfg.MAX_TOKENS_PER_REQUEST - cfg.TOKEN_SAFETY_BUFFER - tc context - 100

/-- Embeds `ChunkManager.chunk_content` (`app/services/ai_model.py`): single chunk
when the content fits, otherwise strategy dispatch followed by
post-processing.  There is no capacity check and no empty-input check. -/
def chunk_content (cfg : Settings) (tc : List Char → Nat) (md5 : List Char → String)
    (content context : List Char) (strategy : ChunkStrategy) :
    Option (List ChunkContext) :=
  let max_content_tokens := availableTokens cfg tc context
  let content_tokens := tc content
  if (content_tokens : Int) ≤ max_content_tokens then
    some [{ chunk_id := generate_chunk_id md5 content 0
            content := content
            chunk_index := 0
            total_chunks := 1 }]
  else
    (apply_chunking_strategy tc md5 cfg.CHUNK_OVERLAP max_content_tokens strategy
      content).map post_process_chunks

/-! ## ResponseAggregator (`app/services/ai_model.py`) -/

/-- The pairing `[(r, chunks[i]) for i, r in enumerate(responses) if i < len(chunks)]`
used by every merge method (equal to a truncating zip). -/
def pairWithChunks (responses : List ModelResponse) (chunks : List ChunkContext) :
    List (ModelResponse × ChunkContext) :=
  responses.zip chunks

/-- Embeds `sorted(pairs, key=lambda x: x[1].chunk_index)` (Python sort is stable). -/
def sortByChunkIndex (pairs : List (ModelResponse × ChunkContext)) :
    List (ModelResponse × ChunkContext) :=
  stableSort (fun a b => decide (a.2.chunk_index ≤ b.2.chunk_index)) pairs

/-- Loop of `ResponseAggregator._merge_code_responses`: strip each response,
drop a leading repeat of the previous chunk's recorded overlap, and remember
the last three lines whenever the chunk carries an overlap. -/
def mergeCodeLoop : List (ModelResponse × ChunkContext) → List Char → List (List Char) →
    List (List Char)
  | [], _, parts => parts
  | (r, ch) :: rest, prevOverlap, parts =>
    let content0 := pyStrip r.content
    let pov := pyStrip prevOverlap
    let content := if prevOverlap ≠ [] ∧ pov.isPrefixOf content0 then
        pyLStrip (content0.drop pov.length)
      else content0
    let prevOverlap' := if ch.overlap_content ≠ [] then
        (let lines := splitSeq (chars "\n") content
         if lines.length ≥ 3 then joinSep (chars "\n") (lines.drop (lines.length - 3))
         else content)
      else prevOverlap
    mergeCodeLoop rest prevOverlap' (parts ++ [content])

/-- Embeds `ResponseAggregator._merge_code_responses`. -/
def merge_code_responses (responses : List ModelResponse) (chunks : List ChunkContext) :
    List Char :=
  joinSep (chars "\n\n") (mergeCodeLoop (sortByChunkIndex (pairWithChunks responses chunks)) [] [])

/-- Embeds `ResponseAggregator._merge_semantic_responses`. -/
def merge_semantic_responses (responses : List ModelResponse) (chunks : List ChunkContext) :
    List Char :=
  joinSep (chars "\n\n")
    (((sortByChunkIndex (pairWithChunks responses chunks)).map
      (fun rc => pyStrip rc.1.content)).filter (fun c => !c.isEmpty))

/-- Sentence-deduplication of `_merge_text_responses`: keep the first
occurrence of every (stripped, non-empty) sentence. -/
def dedupSentences : List (List Char) → List (List Char) → List (List Char)
  | [], _ => []
  | s :: rest, seen =>
    let s' := pyStrip s
    if s' ≠ [] ∧ !seen.contains s' then s' :: dedupSentences rest (s' :: seen)
    else dedupSentences rest seen

/-- Embeds `ResponseAggregator._merge_text_responses`. -/
def merge_text_responses (responses : List ModelResponse) (chunks : List ChunkContext) :
    List Char :=
  let sorted := sortByChunkIndex (pairWithChunks responses chunks)
  let allSentences := (sorted.map (fun rc => splitSentences (pyStrip rc.1.content))).flatten
  joinSep (chars " ") (dedupSentences allSentences [])

/-- Embeds `ResponseAggregator._merge_sequential_responses`. -/
def merge_sequential_responses (responses : List ModelResponse) (chunks : List ChunkContext) :
    List Char :=
  joinSep (chars "\n")
    (((sortByChunkIndex (pairWithChunks responses chunks)).map
      (fun rc => pyStrip rc.1.content)).filter (fun c => !c.isEmpty))

/-- Embeds `ResponseAggregator._merge_adaptive_responses`: pick the predominant
`strategy_used` of the chunks (first key attaining the maximal count, in
first-seen order, like Python's insertion-ordered dict under `max`) and
dispatch to its merge.  No chunk constructor ever tags a chunk `hybrid`
(a hybrid predominant strategy would make the Python method recurse into
itself); that unreachable branch is mapped to the default merge. -/
def merge_adaptive_responses (responses : List ModelResponse) (chunks : List ChunkContext) :
    List Char :=
  if chunks.isEmpty then merge_sequential_responses responses chunks
  else
    let strategies := chunks.map (fun c => c.strategy_used)
    let distinct := strategies.foldl (fun acc s => if acc.contains s then acc else acc ++ [s]) []
    let counts := distinct.map (fun s => (s, (strategies.filter (fun t => t == s)).length))
    let maxCount := (counts.map (fun sc => sc.2)).foldl max 0
    let predominant := match counts.find? (fun sc => sc.2 == maxCount) with
      | some sc => sc.1
      | none => ChunkStrategy.token_based
    match predominant with
    | ChunkStrategy.function_based => merge_code_responses responses chunks
    | ChunkStrategy.semantic => merge_semantic_responses responses chunks
    | ChunkStrategy.sentence_based => merge_text_responses responses chunks
    | ChunkStrategy.token_based => merge_sequential_responses responses chunks
    | ChunkStrategy.hybrid => merge_sequential_responses responses chunks

/-- The `merge_strategies` dispatch of `ResponseAggregator.aggregate_responses`
(`dict.get` with `_merge_sequential_responses` as default). -/
def merge_for_strategy (strategy : ChunkStrategy) (responses : List ModelResponse)
    (chunks : List ChunkContext) : List Char :=
  match strategy with
  | ChunkStrategy.function_based => merge_code_responses responses chunks
  | ChunkStrategy.semantic => merge_semantic_responses responses chunks
  | ChunkStrategy.sentence_based => merge_text_responses responses chunks
  | ChunkStrategy.token_based => merge_sequential_responses responses chunks
  | ChunkStrategy.hybrid => merge_adaptive_responses responses chunks

/-- Embeds `failed_chunks = [chunks[i].chunk_id for i, r in enumerate(responses)
if not r.success and i < len(chunks)]`. -/
def failedChunkIds (responses : List ModelResponse) (chunks : List ChunkContext) :
    List String :=
  (((responses.zip chunks).filter (fun rc => !rc.1.success)).map (fun rc => rc.2.chunk_id))

/-- Embeds `ResponseAggregator.aggregate_responses`. -/
def aggregate_responses (responses : List ModelResponse) (chunks : List ChunkContext)
    (original_strategy : ChunkStrategy) : AggregatedResponse :=
  match responses with
  | [] =>
    { content := [], model := "unknown", total_input_tokens := 0,
      total_output_tokens := 0, total_response_time := 0, chunk_count := 0,
      success := false, failed_chunks := [] }
  | r0 :: _ =>
    let successful := responses.filter (fun r => r.success)
    let failed_chunks := failedChunkIds responses chunks
    if successful.isEmpty then
      { content := [], model := r0.model
        total_input_tokens := (responses.map (fun r => r.input_tokens)).sum
        total_output_tokens := 0
        total_response_time := (responses.map (fun r => r.response_time)).sum
        chunk_count := responses.length
        success := false
        failed_chunks := failed_chunks }
    else
      { content := merge_for_strategy original_strategy successful chunks
        model := r0.model
        total_input_tokens := (responses.map (fun r => r.input_tokens)).sum
        total_output_tokens := (successful.map (fun r => r.output_tokens)).sum
        total_response_time := (responses.map (fun r => r.response_time)).sum
        chunk_count := responses.length
        success := decide (successful.length > 0)
        failed_chunks := failed_chunks }

/-! ## ModelRouter (`app/services/ai_model.py`) -/

/-- The `capability_map` dict of `ModelRouter.select_model`: `"auto"` and any
unknown task type map to `None` (`dict.get` default). -/
def capability_map (task_type : String) : Option ModelCapability :=
  if task_type == "code_generation" then some ModelCapability.code_generation
  else if task_type == "code_analysis" then some ModelCapability.code_analysis
  else if task_type == "text_processing" then some ModelCapability.text_processing
  else if task_type == "reasoning" then some ModelCapability.reasoning
  else none

/-- Embeds `self.model_capabilities` of `ModelRouter.__init__` (`dict.get(model, [])`). -/
def model_capabilities (model : String) : List ModelCapability :=
  if model == "mistral-ai/Codestral-2501" then
    [ModelCapability.code_generation, ModelCapability.code_analysis]
  else if model == "openai/gpt-4.1" then
    [ModelCapability.reasoning, ModelCapability.tool_calling, ModelCapability.text_processing]
  else if model == "openai/gpt-4o" then
    [ModelCapability.reasoning, ModelCapability.code_analysis, ModelCapability.tool_calling]
  else if model == "cohere/cohere-command-a" then
    [ModelCapability.text_processing, ModelCapability.tool_calling]
  else []

/-- The capability/tool filter of `ModelRouter.select_model` followed by the
"fallback to any available model" step: the filtered `MODEL_CONFIGS`, or all
of `MODEL_CONFIGS` when the filter leaves nothing. -/
def candidate_models (task_type : String) (requires_tools : Bool) :
    List (String × ModelConfig) :=
  let candidates := MODEL_CONFIGS.filter (fun mc =>
    (match capability_map task_type with
     | none => true
     | some c => (model_capabilities mc.1).contains c)
    && (!requires_tools || (model_capabilities mc.1).contains ModelCapability.tool_calling))
  if candidates.isEmpty then MODEL_CONFIGS else candidates

/-- The candidates sorted by ascending priority
(`candidate_models.sort(key=lambda x: x[1]["priority"])`, stable). -/
def sorted_candidates (task_type : String) (requires_tools : Bool) :
    List (String × ModelConfig) :=
  stableSort (fun a b => decide (a.2.priority ≤ b.2.priority))
    (candidate_models task_type requires_tools)

/-- Embeds `ModelRouter.select_model`.  Live health checks are external I/O; they
are abstracted as a predicate `health : String → Bool`
(`check_model_health` converts every exception into `False`, so a Boolean
is its exact observable behaviour).  The walk over the priority-sorted
candidates picks the first healthy model, then the first candidate
(degraded mode), then the first configured model (`next(iter(...))`). -/
def select_model (health : String → Bool) (task_type : String)
    (content_length : Nat) (requires_tools : Bool) : String :=
  match (sorted_candidates task_type requires_tools).find? (fun mc => health mc.1) with
  | some mc => mc.1
  | none =>
    match sorted_candidates task_type requires_tools with
    | mc :: _ => mc.1
    | [] =>
      match MODEL_CONFIGS with
      | mc :: _ => mc.1
      | [] => ""

/-! ## AIModelService (`app/services/ai_model.py`) -/

/-- Outcome of one Azure completion attempt inside `_make_single_request`
(the network call is external; each attempt either yields content and token
usage or raises, which the Python `except` arms turn into an error string). -/
structure AttemptSuccess where
  content : List Char
  input_tokens : Nat
  output_tokens : Nat
deriving DecidableEq, Repr

/-- The retry loop of `AIModelService._make_single_request` over the attempt
indices `range(max_retries)`; wall-clock `response_time` is external and
modelled as 0. -/
def make_single_request_go (attempt : Nat → Except String AttemptSuccess)
    (model : String) (chunk : ChunkContext) (max_retries : Nat) :
    List Nat → Option String → ModelResponse
  | [], last_error =>
    { content := [], model := model, input_tokens := 0, output_tokens := 0,
      total_tokens := 0, response_time := 0, success := false,
      chunk_id := some chunk.chunk_id,
      error := some ("All " ++ toString max_retries ++ " attempts failed. Last error: " ++
        (match last_error with | some e => e | none => "None")) }
  | i :: rest, last_error =>
    match attempt i with
    | Except.ok p =>
      { content := p.content, model := model, input_tokens := p.input_tokens,
        output_tokens := p.output_tokens, total_tokens := p.input_tokens + p.output_tokens,
        response_time := 0, success := true, chunk_id := some chunk.chunk_id }
    | Except.error e => make_single_request_go attempt model chunk max_retries rest (some e)

/-- Embeds `AIModelService._make_single_request`. -/
def make_single_request (attempt : Nat → Except String AttemptSuccess)
    (model : String) (chunk : ChunkContext) (max_retries : Nat) : ModelResponse :=
  make_single_request_go attempt model chunk max_retries (List.range max_retries) none

/-- Embeds `AIModelService._process_chunks_concurrently`: dispatch every chunk
(bounded concurrency does not change the result list, which is indexed by
chunk position) and convert any raised exception into a failed
`ModelResponse` (`asyncio.gather(..., return_exceptions=True)` plus the
conversion loop). -/
def process_chunks_concurrently (dispatch : ChunkContext → Except String ModelResponse)
    (model : String) (chunks : List ChunkContext) : List ModelResponse :=
  chunks.map (fun c =>
    match dispatch c with
    | Except.ok r => r
    | Except.error e =>
      { content := [], model := model, input_tokens := 0, output_tokens := 0,
        total_tokens := 0, response_time := 0, success := false,
        chunk_id := some c.chunk_id, error := some e })

/-- The fallible sub-computations of `AIModelService.generate_response`,
each abstracted as an `Except` (an `error` is a Python exception propagating
out of that stage). -/
structure GenerateStages where
  select : Except String String
  chunker : String → Except String (List ChunkContext)
  single : String → ChunkContext → Except String ModelResponse
  dispatch : String → ChunkContext → Except String ModelResponse

/-- The body of the `try:` block of `AIModelService.generate_response`:
select a model unless one was passed, chunk, then answer with a single
request for one chunk or with concurrent dispatch plus aggregation. -/
def generate_response_core (st : GenerateStages) (modelArg : Option String)
    (strategy : ChunkStrategy) : Except String (ModelResponse ⊕ AggregatedResponse) := do
  let model ← match modelArg with
    | some m => Except.ok m
    | none => st.select
  let chunks ← st.chunker model
  match chunks with
  | [c] => do
    let r ← st.single model c
    return Sum.inl r
  | _ =>
    let rs := process_chunks_concurrently (st.dispatch model) model chunks
    return Sum.inr (aggregate_responses rs chunks strategy)

/-- The value the `except` arm puts into `model=model or "unknown"`: the
passed model, else the selected one if selection succeeded before the
exception, else `"unknown"`. -/
def fallback_model_name (modelArg : Option String) (select : Except String String) : String :=
  match modelArg with
  | some m => m
  | none =>
    match select with
    | Except.ok m => m
    | Except.error _ => "unknown"

/-- The `ModelResponse` built by the `except` arm of `generate_response`. -/
def error_model_response (model : String) (e : String) : ModelResponse :=
  { content := [], model := model, input_tokens := 0, output_tokens := 0,
    total_tokens := 0, response_time := 0, success := false, error := some e }

/-- Embeds `AIModelService.generate_response`: the whole body runs inside
`try: ... except Exception as e:`; an exception from any stage is converted
into a failed `ModelResponse` carrying the exception message. -/
def generate_response (st : GenerateStages) (modelArg : Option String)
    (strategy : ChunkStrategy) : ModelResponse ⊕ AggregatedResponse :=
  match generate_response_core st modelArg strategy with
  | Except.ok r => r
  | Except.error e => Sum.inl (error_model_response (fallback_model_name modelArg st.select) e)

/-! ## The second ChunkManager (`app/services/chunk_management.py`) -/

namespace ChunkMgmt

/-- Embeds `TokenCounter.count_tokens` of `chunk_management.py`:
`len(text) // 4 + 1`. -/
def count_tokens (text : List Char) : Nat := text.length / 4 + 1

/-- Embeds `Chunk` dataclass of `chunk_management.py` (metadata dict not modelled). -/
structure Chunk where
  content : List Char
  index : Nat
  total_chunks : Nat
  context : List Char
  token_count : Nat
deriving DecidableEq, Repr

/-- Embeds `ChunkResult` dataclass of `chunk_management.py`. -/
structure ChunkResult where
  chunks : List Chunk
  total_tokens : Nat
  strategy_used : String
  success : Bool
  error_message : Option String := none
deriving DecidableEq, Repr

/-- The capacity error of `ChunkManager.chunk_content`. -/
def capacity_error_message : String := "Context too large, no tokens available for content"

/-- Embeds `ChunkManager.chunk_content` of `chunk_management.py`.  The five
content-type chunkers it can dispatch to (`_chunk_python_code` & co., which
parse with Python's `ast`/`re` libraries) are abstracted as the
`type_chunker` argument: the capacity branch and the single-chunk branch
return before any of them runs. -/
def chunk_content (max_tokens safety_buffer : Int)
    (type_chunker : List Char → List Char → Int → ChunkResult)
    (content context : List Char) : ChunkResult :=
  let context_tokens := count_tokens context
  let available_tokens : Int := max_tokens - context_tokens - safety_buffer
  if available_tokens ≤ 0 then
    { chunks := [], total_tokens := 0, strategy_used := "none", success := false,
      error_message := some capacity_error_message }
  else
    let content_tokens := count_tokens content
    if (content_tokens : Int) ≤ available_tokens then
      { chunks := [{ content := content, index := 0, total_chunks := 1,
                     context := context, token_count := content_tokens }],
        total_tokens := content_tokens + context_tokens,
        strategy_used := "single", success := true }
    else type_chunker content context available_tokens

end ChunkMgmt

/-! ## Helper definitions for concrete runs -/

/-- Digest stub used to instantiate the abstract md5 parameter in concrete
runs (chunk ids never influence control flow). -/
def md5stub : List Char → String := fun _ => ""

/-- Strip a chunk's recorded overlap from the front of its content (the
reconstruction operation named by the spec:
"concatenating chunk contents (after stripping recorded overlaps)"). -/
def stripRecordedOverlap (c : ChunkContext) : List Char :=
  c.content.drop c.overlap_content.length

/-- Response that echoes a chunk's content back, as an ideal model would
(used to drive `merge_text_responses` on concrete chunkings). -/
def echoResponse (c : ChunkContext) : ModelResponse :=
  { content := c.content, model := "m", input_tokens := 0, output_tokens := 0,
    total_tokens := 0, response_time := 0, success := true }

/-! ## Lemmas about the token-based chunking loop -/

theorem snapEnd_le (content : List Char) (start e : Nat) : snapEnd content start e ≤ e := by
  unfold snapEnd
  cases h : (List.range (min 100 (e - start))).find? (fun i => isPySpace (content.getD (e - i) 'a')) with
  | none => exact Nat.le_refl e
  | some i =>
    show e - i ≤ e
    exact Nat.sub_le e i

theorem lt_snapEnd (content : List Char) (start e : Nat) (h : start < e) :
    start < snapEnd content start e := by
  unfold snapEnd
  cases hf : (List.range (min 100 (e - start))).find? (fun i => isPySpace (content.getD (e - i) 'a')) with
  | none => exact h
  | some i =>
    have hmem := List.mem_of_find?_eq_some hf
    have := List.mem_range.mp hmem
    show start < e - i
    omega

theorem tokenStepEnd_ge (size : Nat) (content : List Char) (start : Nat)
    (h : start < content.length) :
    start ≤ tokenStepEnd size content start := by
  unfold tokenStepEnd
  by_cases hc : min (start + size) content.length < content.length
  · simp only [hc, if_true]
    rcases Nat.lt_or_ge start (min (start + size) content.length) with h2 | h2
    · exact Nat.le_of_lt (lt_snapEnd content start _ h2)
    · have heq : min (start + size) content.length = start := by omega
      rw [heq]
      have hsnap : snapEnd content start start = start := by
        unfold snapEnd
        simp [Nat.sub_self]
      omega
  · simp only [hc, if_false]
    omega

theorem tokenStepEnd_lt (size : Nat) (content : List Char) (start : Nat)
    (hsize : 1 ≤ size) (h : start < content.length) :
    start < tokenStepEnd size content start := by
  unfold tokenStepEnd
  have h0 : start < min (start + size) content.length := by omega
  by_cases hc : min (start + size) content.length < content.length
  · simp only [hc, if_true]
    exact lt_snapEnd content start _ h0
  · simp only [hc, if_false]
    exact h0

theorem tokenStepEnd_le_min (size : Nat) (content : List Char) (start : Nat) :
    tokenStepEnd size content start ≤ min (start + size) content.length := by
  unfold tokenStepEnd
  by_cases hc : min (start + size) content.length < content.length
  · simp only [hc, if_true]
    exact snapEnd_le content start _
  · simp only [hc, if_false]
    exact Nat.le_refl _

theorem tokenLoop_unfold (md5 : List Char → String) (size oc : Nat) (content : List Char)
    (fuel start : Nat) (acc : List ChunkContext) :
    tokenLoop md5 size oc content fuel start acc =
      if start < content.length then
        match fuel with
        | 0 => none
        | fuel + 1 =>
          tokenLoop md5 size oc content fuel (tokenStepEnd size content start)
            (acc ++ [tokenChunk md5 oc content start (tokenStepEnd size content start) acc.length])
      else some acc := by
  cases fuel <;> rfl

theorem tokenLoop_terminates (md5 : List Char → String) (size oc : Nat) (content : List Char)
    (hsize : 1 ≤ size) :
    ∀ fuel start acc, content.length - start ≤ fuel →
      ∃ l, tokenLoop md5 size oc content fuel start acc = some l := by
  intro fuel
  induction fuel with
  | zero =>
    intro start acc h
    rw [tokenLoop_unfold]
    have : ¬ start < content.length := by omega
    simp only [this, if_false]
    exact ⟨acc, rfl⟩
  | succ f ih =>
    intro start acc h
    rw [tokenLoop_unfold]
    by_cases hs : start < content.length
    · simp only [hs, if_true]
      apply ih
      have := tokenStepEnd_lt size content start hsize hs
      omega
    · simp only [hs, if_false]
      exact ⟨acc, rfl⟩

theorem stripRecordedOverlap_tokenChunk (md5 : List Char → String) (oc : Nat)
    (content : List Char) (start e idx : Nat) :
    stripRecordedOverlap (tokenChunk md5 oc content start e idx) =
      (content.drop start).take (e - start) := by
  unfold stripRecordedOverlap tokenChunk
  simp [List.drop_left]

theorem tokenChunk_index (md5 : List Char → String) (oc : Nat)
    (content : List Char) (start e idx : Nat) :
    (tokenChunk md5 oc content start e idx).chunk_index = idx := rfl

theorem tokenLoop_reconstruct (md5 : List Char → String) (size oc : Nat) (content : List Char) :
    ∀ fuel start acc l, tokenLoop md5 size oc content fuel start acc = some l →
      ∃ rest, l = acc ++ rest ∧ (rest.map stripRecordedOverlap).flatten = content.drop start := by
  intro fuel
  induction fuel with
  | zero =>
    intro start acc l h
    rw [tokenLoop_unfold] at h
    by_cases hs : start < content.length
    · simp only [hs, if_true] at h
      exact Option.noConfusion h
    · simp only [hs, if_false, Option.some.injEq] at h
      refine ⟨[], by simp [← h], ?_⟩
      have : content.length ≤ start := Nat.le_of_not_lt hs
      simp [List.drop_eq_nil_of_le this]
  | succ f ih =>
    intro start acc l h
    rw [tokenLoop_unfold] at h
    by_cases hs : start < content.length
    · simp only [hs, if_true] at h
      obtain ⟨rest, hrest, hflat⟩ := ih _ _ _ h
      refine ⟨tokenChunk md5 oc content start (tokenStepEnd size content start) acc.length :: rest,
        by simp [hrest], ?_⟩
      simp only [List.map_cons, List.flatten_cons, hflat, stripRecordedOverlap_tokenChunk]
      have hge := tokenStepEnd_ge size content start hs
      obtain ⟨d, hd⟩ : ∃ d, tokenStepEnd size content start = start + d :=
        ⟨tokenStepEnd size content start - start, by omega⟩
      rw [hd, Nat.add_sub_cancel_left]
      exact List.drop_take_append_drop content start d
    · simp only [hs, if_false, Option.some.injEq] at h
      refine ⟨[], by simp [← h], ?_⟩
      have : content.length ≤ start := Nat.le_of_not_lt hs
      simp [List.drop_eq_nil_of_le this]

theorem tokenLoop_indices (md5 : List Char → String) (size oc : Nat) (content : List Char) :
    ∀ fuel start acc l, acc.map (fun c => c.chunk_index) = List.range acc.length →
      tokenLoop md5 size oc content fuel start acc = some l →
      l.map (fun c => c.chunk_index) = List.range l.length := by
  intro fuel
  induction fuel with
  | zero =>
    intro start acc l hacc h
    rw [tokenLoop_unfold] at h
    by_cases hs : start < content.length
    · simp only [hs, if_true] at h
      exact Option.noConfusion h
    · simp only [hs, if_false, Option.some.injEq] at h
      rw [← h]; exact hacc
  | succ f ih =>
    intro start acc l hacc h
    rw [tokenLoop_unfold] at h
    by_cases hs : start < content.length
    · simp only [hs, if_true] at h
      apply ih _ _ _ _ h
      simp [hacc, tokenChunk_index, List.range_succ]
    · simp only [hs, if_false, Option.some.injEq] at h
      rw [← h]; exact hacc

theorem isPySpace_getD_false (content : List Char)
    (hws : ∀ c ∈ content, isPySpace c = false) (n : Nat) :
    isPySpace (content.getD n 'a') = false := by
  rw [List.getD_eq_getD_get?]
  cases hg : content.get? n with
  | none => decide
  | some x =>
    simp only [Option.getD]
    exact hws x (List.get?_mem hg)

theorem tokenLoop_noWs_bound (md5 : List Char → String) (size oc : Nat) (content : List Char)
    (hws : ∀ c ∈ content, isPySpace c = false) :
    ∀ k start acc, content.length ≤ start + k * size →
      ∃ l, tokenLoop md5 size oc content k start acc = some l := by
  intro k
  induction k with
  | zero =>
    intro start acc h
    rw [tokenLoop_unfold]
    have : ¬ start < content.length := by omega
    simp only [this, if_false]
    exact ⟨acc, rfl⟩
  | succ f ih =>
    intro start acc h
    rw [tokenLoop_unfold]
    by_cases hs : start < content.length
    · simp only [hs, if_true]
      have hstep : tokenStepEnd size content start = min (start + size) content.length := by
        unfold tokenStepEnd
        by_cases hc : min (start + size) content.length < content.length
        · simp only [hc, if_true]
          unfold snapEnd
          have : (List.range (min 100 (min (start + size) content.length - start))).find?
              (fun i => isPySpace (content.getD (min (start + size) content.length - i) 'a')) = none := by
            rw [List.find?_eq_none]
            intro i _
            simp only [Bool.not_eq_true]
            exact isPySpace_getD_false content hws _
          rw [this]
        · simp only [hc, if_false]
      rw [hstep]
      apply ih
      have hmul : (f + 1) * size = f * size + size := by ring
      omega
    · simp only [hs, if_false]
      exact ⟨acc, rfl⟩

theorem chunkSizeNat_eq_natDiv (tc : List Char → Nat) (mt : Int) (content : List Char)
    (hmt : 0 ≤ mt) :
    chunkSizeNat tc mt content =
      mt.toNat * content.length * 9 / (10 * (max (tc content) 1)) := by
  unfold chunkSizeNat chunkSizeChars
  obtain ⟨a, rfl⟩ : ∃ a : Nat, mt = (a : Int) := ⟨mt.toNat, (Int.toNat_of_nonneg hmt).symm⟩
  have hcast : (a : Int) * (content.length : Int) * 9 = ((a * content.length * 9 : Nat) : Int) := by
    push_cast; ring
  have hcast2 : (10 : Int) * ((max (tc content) 1 : Nat) : Int) = ((10 * max (tc content) 1 : Nat) : Int) := by
    push_cast; ring
  rw [hcast, hcast2]
  have : ((a * content.length * 9 : Nat) : Int).tdiv ((10 * max (tc content) 1 : Nat) : Int)
      = ((a * content.length * 9 / (10 * max (tc content) 1) : Nat) : Int) := rfl
  rw [this, Int.toNat_ofNat, Int.toNat_ofNat]

theorem chunkSizeNat_lt_len (tc : List Char → Nat) (mt : Int) (content : List Char)
    (h1 : 1 ≤ mt) (h2 : mt < (tc content : Int)) (h3 : content ≠ []) :
    chunkSizeNat tc mt content < content.length := by
  rw [chunkSizeNat_eq_natDiv tc mt content (by omega)]
  have hlen : 0 < content.length := List.length_pos.mpr h3
  have hT : mt.toNat < max (tc content) 1 := by
    have : mt.toNat < tc content := by omega
    omega
  have hTpos : 0 < 10 * max (tc content) 1 := by omega
  rw [Nat.div_lt_iff_lt_mul hTpos]
  calc mt.toNat * content.length * 9 = content.length * (mt.toNat * 9) := by ring
    _ < content.length * (10 * max (tc content) 1) :=
        (Nat.mul_lt_mul_left hlen).mpr (by omega)

theorem ceil_mul_ge (a b : Nat) (hb : 1 ≤ b) : a ≤ ((a + b - 1) / b) * b := by
  have hdm := Nat.div_add_mod (a + b - 1) b
  have hmod : (a + b - 1) % b < b := Nat.mod_lt _ (by omega)
  have hcomm : b * ((a + b - 1) / b) = ((a + b - 1) / b) * b := Nat.mul_comm _ _
  omega

theorem mkStrategyChunk_index (md5 : List Char → String) (strategy : ChunkStrategy)
    (content : List Char) (index : Nat) (ov : List Char) :
    (mkStrategyChunk md5 strategy content index ov).chunk_index = index := rfl

theorem indices_snoc (acc : List ChunkContext) (c : ChunkContext)
    (h : acc.map (fun x => x.chunk_index) = List.range acc.length)
    (hc : c.chunk_index = acc.length) :
    (acc ++ [c]).map (fun x => x.chunk_index) = List.range (acc ++ [c]).length := by
  simp [h, hc, List.range_succ]

theorem funLoop_indices (tc : List Char → Nat) (md5 : List Char → String) (mt : Int) :
    ∀ lines acc cur curT inF depth,
      acc.map (fun c => c.chunk_index) = List.range acc.length →
      (funLoop tc md5 mt lines acc cur curT inF depth).map (fun c => c.chunk_index)
        = List.range (funLoop tc md5 mt lines acc cur curT inF depth).length := by
  intro lines
  induction lines with
  | nil =>
    intro acc cur curT inF depth hacc
    unfold funLoop
    by_cases hc : cur ≠ []
    · rw [if_pos hc]
      exact indices_snoc acc _ hacc (mkStrategyChunk_index md5 _ _ _ _)
    · rw [if_neg hc]
      exact hacc
  | cons line rest ih =>
    intro acc cur curT inF depth hacc
    unfold funLoop
    repeat' split
    all_goals
      first
        | exact ih _ _ _ _ _ hacc
        | exact ih _ _ _ _ _ (indices_snoc acc _ hacc (mkStrategyChunk_index md5 _ _ _ _))

/-! ## Lemmas about the stable sort -/

theorem insertStable_of_all_le (le : α → α → Bool) (x : α) :
    ∀ acc, (∀ y ∈ acc, le y x = true) → insertStable le x acc = acc ++ [x] := by
  intro acc
  induction acc with
  | nil => intro _; rfl
  | cons a as ih =>
    intro h
    unfold insertStable
    rw [if_pos (h a (by simp))]
    rw [ih (fun y hy => h y (by simp [hy]))]
    simp

theorem mem_insertStable (le : α → α → Bool) (x : α) :
    ∀ l y, y ∈ insertStable le x l ↔ y = x ∨ y ∈ l := by
  intro l
  induction l with
  | nil => intro y; simp [insertStable]
  | cons a as ih =>
    intro y
    unfold insertStable
    by_cases h : le a x
    · rw [if_pos h]
      simp only [List.mem_cons, ih]
      tauto
    · rw [if_neg h]
      simp only [List.mem_cons]

theorem mem_stableSort (le : α → α → Bool) (l : List α) (y : α) :
    y ∈ stableSort le l ↔ y ∈ l := by
  unfold stableSort
  suffices h : ∀ (l2 acc : List α),
      y ∈ l2.foldl (fun acc x => insertStable le x acc) acc ↔ y ∈ acc ∨ y ∈ l2 by
    rw [h l []]
    simp
  intro l2
  induction l2 with
  | nil => intro acc; simp
  | cons a as ih =>
    intro acc
    simp only [List.foldl_cons, ih, mem_insertStable]
    simp only [List.mem_cons]
    tauto

theorem stableSort_sorted_id (le : α → α → Bool) :
    ∀ (l : List α), l.Pairwise (fun a b => le a b = true) → stableSort le l = l := by
  have key : ∀ (l acc : List α), (∀ y ∈ acc, ∀ z ∈ l, le y z = true) →
      l.Pairwise (fun a b => le a b = true) →
      l.foldl (fun acc x => insertStable le x acc) acc = acc ++ l := by
    intro l
    induction l with
    | nil => intro acc _ _; simp
    | cons a as ih =>
      intro acc hcross hpair
      simp only [List.foldl_cons]
      rw [insertStable_of_all_le le a acc (fun y hy => hcross y hy a (by simp))]
      rw [ih (acc ++ [a]) ?_ (List.Pairwise.of_cons hpair)]
      · simp
      · intro y hy z hz
        rcases List.mem_append.mp hy with hy | hy
        · exact hcross y hy z (by simp [hz])
        · have : y = a := by simpa using hy
          subst this
          exact (List.pairwise_cons.mp hpair).1 z hz
  intro l hpair
  unfold stableSort
  have := key l [] (by simp) hpair
  simpa using this

theorem pairwise_zip_of_pairwise_right {α β : Type} {R : β → β → Prop} :
    ∀ (l₁ : List α) (l₂ : List β), l₂.Pairwise R →
      (l₁.zip l₂).Pairwise (fun a b => R a.2 b.2) := by
  intro l₁
  induction l₁ with
  | nil => intro l₂ _; simp
  | cons a as ih =>
    intro l₂ h
    cases l₂ with
    | nil => simp
    | cons b bs =>
      rw [List.zip_cons_cons, List.pairwise_cons]
      constructor
      · intro p hp
        have hmem := List.of_mem_zip hp
        exact (List.pairwise_cons.mp h).1 p.2 hmem.2
      · exact ih bs (List.Pairwise.of_cons h)

theorem merge_sequential_of_sorted (responses : List ModelResponse) (chunks : List ChunkContext)
    (hlen : responses.length ≤ chunks.length)
    (hsorted : chunks.Pairwise (fun a b => a.chunk_index ≤ b.chunk_index)) :
    merge_sequential_responses responses chunks
      = joinSep (chars "\n")
          ((responses.map (fun r => pyStrip r.content)).filter (fun c => !c.isEmpty)) := by
  unfold merge_sequential_responses sortByChunkIndex pairWithChunks
  have hpair : (responses.zip chunks).Pairwise
      (fun a b => decide (a.2.chunk_index ≤ b.2.chunk_index) = true) := by
    have hz := pairwise_zip_of_pairwise_right responses chunks hsorted
    exact hz.imp (fun h => by simpa using h)
  rw [stableSort_sorted_id _ _ hpair]
  have hmap : (responses.zip chunks).map (fun rc => pyStrip rc.1.content)
      = responses.map (fun r => pyStrip r.content) := by
    have : (fun (rc : ModelResponse × ChunkContext) => pyStrip rc.1.content)
        = (fun r : ModelResponse => pyStrip r.content) ∘ Prod.fst := rfl
    rw [this, ← List.map_map, List.map_fst_zip _ _ hlen]
  rw [hmap]

theorem candidate_models_sub (task_type : String) (requires_tools : Bool) :
    ∀ mc ∈ candidate_models task_type requires_tools, mc ∈ MODEL_CONFIGS := by
  intro mc hmc
  unfold candidate_models at hmc
  by_cases hemp : (MODEL_CONFIGS.filter (fun mc =>
      (match capability_map task_type with
       | none => true
       | some c => (model_capabilities mc.1).contains c)
      && (!requires_tools || (model_capabilities mc.1).contains ModelCapability.tool_calling))).isEmpty
  · rw [if_pos hemp] at hmc; exact hmc
  · rw [if_neg hemp] at hmc
    exact List.mem_of_mem_filter hmc

theorem sorted_candidates_sub (task_type : String) (requires_tools : Bool) :
    ∀ mc ∈ sorted_candidates task_type requires_tools, mc ∈ MODEL_CONFIGS := by
  intro mc hmc
  unfold sorted_candidates at hmc
  exact candidate_models_sub task_type requires_tools mc
    ((mem_stableSort _ _ mc).mp hmc)

theorem select_model_mem (health : String → Bool) (task_type : String)
    (content_length : Nat) (requires_tools : Bool) :
    select_model health task_type content_length requires_tools ∈ MODEL_CONFIGS.map Prod.fst := by
  unfold select_model
  cases hf : (sorted_candidates task_type requires_tools).find? (fun mc => health mc.1) with
  | some mc =>
    exact List.mem_map_of_mem Prod.fst
      (sorted_candidates_sub task_type requires_tools mc (List.mem_of_find?_eq_some hf))
  | none =>
    cases hs : sorted_candidates task_type requires_tools with
    | cons mc tail =>
      exact List.mem_map_of_mem Prod.fst
        (sorted_candidates_sub task_type requires_tools mc (by rw [hs]; simp))
    | nil =>
      show ("mistral-ai/Codestral-2501" : String) ∈ MODEL_CONFIGS.map Prod.fst
      decide

theorem mem_model_configs_ne_empty (s : String) (hs : s ∈ MODEL_CONFIGS.map Prod.fst) :
    s ≠ "" := by
  unfold MODEL_CONFIGS at hs
  simp only [List.map_cons, List.map_nil, List.mem_cons, List.not_mem_nil, or_false] at hs
  rcases hs with h | h | h | h <;> subst h <;> decide

theorem make_single_request_go_all_fail (attempt : Nat → Except String AttemptSuccess)
    (model : String) (chunk : ChunkContext) (mr : Nat) :
    ∀ idxs last_error, (∀ i ∈ idxs, ∃ e, attempt i = Except.error e) →
      (make_single_request_go attempt model chunk mr idxs last_error).success = false ∧
      ∃ s, (make_single_request_go attempt model chunk mr idxs last_error).error =
        some ("All " ++ toString mr ++ " attempts failed. Last error: " ++ s) := by
  intro idxs
  induction idxs with
  | nil =>
    intro last_error _
    refine ⟨rfl, ?_⟩
    cases last_error with
    | none => exact ⟨"None", rfl⟩
    | some e => exact ⟨e, rfl⟩
  | cons i rest ih =>
    intro last_error h
    obtain ⟨e, he⟩ := h i (by simp)
    unfold make_single_request_go
    rw [he]
    exact ih (some e) (fun j hj => h j (by simp [hj]))

theorem make_single_request_go_last_ok (attempt : Nat → Except String AttemptSuccess)
    (model : String) (chunk : ChunkContext) (mr : Nat) (j : Nat) (p : AttemptSuccess)
    (hok : attempt j = Except.ok p) :
    ∀ idxs last_error, (∀ i ∈ idxs, ∃ e, attempt i = Except.error e) →
      (make_single_request_go attempt model chunk mr (idxs ++ [j]) last_error).success = true := by
  intro idxs
  induction idxs with
  | nil =>
    intro last_error _
    show (make_single_request_go attempt model chunk mr [j] last_error).success = true
    unfold make_single_request_go
    rw [hok]
  | cons i rest ih =>
    intro last_error h
    obtain ⟨e, he⟩ := h i (by simp)
    show (make_single_request_go attempt model chunk mr (i :: (rest ++ [j])) last_error).success = true
    unfold make_single_request_go
    rw [he]
    exact ih (some e) (fun k hk => h k (by simp [hk]))

/-! ## Claim theorems

Each claim of the specification is settled below: one theorem per claim,
with a closed counterexample where the claim as stated fails on the code,
and a witness instantiating every theorem that carries hypotheses. -/

/-- Settings used by several concrete runs below (the values are
environment overrides of the pydantic `Settings`; chosen so that
`availableTokens` is small enough for short concrete contents). -/
def cfg310 : Settings :=
  { MAX_TOKENS_PER_REQUEST := 310, TOKEN_SAFETY_BUFFER := 200, CHUNK_OVERLAP := 100 }

/-- Settings giving a negative `availableTokens` for an empty context. -/
def cfg300 : Settings :=
  { MAX_TOKENS_PER_REQUEST := 300, TOKEN_SAFETY_BUFFER := 200, CHUNK_OVERLAP := 100 }

/-- Settings giving `availableTokens = 4` for an empty context. -/
def cfg305 : Settings :=
  { MAX_TOKENS_PER_REQUEST := 305, TOKEN_SAFETY_BUFFER := 200, CHUNK_OVERLAP := 100 }

/-- Settings giving `availableTokens = 2` for an empty context. -/
def cfg303 : Settings :=
  { MAX_TOKENS_PER_REQUEST := 303, TOKEN_SAFETY_BUFFER := 200, CHUNK_OVERLAP := 100 }

/-- Claim C1, counterexample.  The claim says every `chunk_content` call on
content whose token count exceeds `available_tokens` returns at least two
chunks.  With `MAX_TOKENS_PER_REQUEST = 310` (budget 9), empty context and
six one-token sentences, the content counts 10 tokens (> 9) yet the
sentence-based strategy accumulates all six sentences into a single chunk,
because per-sentence token counts undercount the whole content. -/
theorem C1_counterexample :
    (tcHeuristic (chars "Abcde. Abcde. Abcde. Abcde. Abcde. Abcde.") : Int) >
        availableTokens cfg310 tcHeuristic [] ∧
    (chunk_content cfg310 tcHeuristic md5stub
      (chars "Abcde. Abcde. Abcde. Abcde. Abcde. Abcde.") []
      ChunkStrategy.sentence_based).map List.length = some 1 :=
  ⟨by decide, rfl⟩

/-- Claim C1 (amended): for the token-based strategy the claim holds — when
the content's token count exceeds the budget (and the computed cut width is
at least one character, without which the Python loop never returns),
`_token_based_chunking` produces at least two chunks, and stripping each
chunk's recorded `overlap_content` prefix and concatenating reconstructs
the original content exactly, with no character span dropped. -/
theorem C1_token_based_split_reconstructs (tc : List Char → Nat) (md5 : List Char → String)
    (chunk_overlap : Nat) (mt : Int) (content : List Char)
    (h1 : 1 ≤ mt) (h2 : mt < (tc content : Int)) (hsize : 1 ≤ chunkSizeNat tc mt content) :
    ∃ l, token_based_chunking tc md5 chunk_overlap mt content = some l ∧
      2 ≤ l.length ∧ (l.map stripRecordedOverlap).flatten = content := by
  have h3 : content ≠ [] := by
    intro hnil
    rw [hnil] at hsize
    simp [chunkSizeNat, chunkSizeChars, Int.zero_tdiv] at hsize
  have hlt := chunkSizeNat_lt_len tc mt content h1 h2 h3
  have hlen : 0 < content.length := List.length_pos.mpr h3
  obtain ⟨m, hm⟩ : ∃ m, content.length = m + 1 := ⟨content.length - 1, by omega⟩
  set size := chunkSizeNat tc mt content with hsz
  set oc := overlapCharsNat tc chunk_overlap content with hoc
  set e1 := tokenStepEnd size content 0 with he1
  have he1le : e1 ≤ size := by
    have := tokenStepEnd_le_min size content 0
    omega
  have he1lt : e1 < content.length := by omega
  have he1pos : 0 < e1 := tokenStepEnd_lt size content 0 hsize hlen
  set c1 := tokenChunk md5 oc content 0 e1 (0 : Nat) with hc1
  obtain ⟨l, hl⟩ := tokenLoop_terminates md5 size oc content hsize m e1 [c1] (by omega)
  have htop : tokenLoop md5 size oc content content.length 0 [] = some l := by
    rw [hm, tokenLoop_unfold]
    simp only [hlen, if_true]
    have : ([] : List ChunkContext) ++ [tokenChunk md5 oc content 0 (tokenStepEnd size content 0) (List.length ([] : List ChunkContext))] = [c1] := by
      simp [hc1, he1]
    rw [this]
    exact hl
  refine ⟨l, htop, ?_, ?_⟩
  · obtain ⟨rest, hrest, hflat⟩ := tokenLoop_reconstruct md5 size oc content m e1 [c1] l hl
    have hne : rest ≠ [] := by
      intro hr
      subst hr
      simp only [List.map_nil, List.flatten_nil] at hflat
      have hd : List.drop e1 content = [] := hflat.symm
      have := List.drop_eq_nil_iff_le.mp hd
      omega
    rw [hrest]
    have hrl : 0 < rest.length := List.length_pos.mpr hne
    simp only [List.length_append, List.length_cons, List.length_nil]
    omega
  · obtain ⟨rest, hrest, hflat⟩ := tokenLoop_reconstruct md5 size oc content content.length 0 [] l htop
    rw [hrest]
    simpa using hflat


/-- Claim C1, witness: the amended theorem applied to a concrete
ten-character content with budget 1 token (cut width 4). -/
theorem C1_token_based_split_reconstructs_witness :
    ∃ l, token_based_chunking tcHeuristic md5stub 100 1 (chars "abcdefghij") = some l ∧
      2 ≤ l.length ∧ (l.map stripRecordedOverlap).flatten = chars "abcdefghij" :=
  C1_token_based_split_reconstructs tcHeuristic md5stub 100 1 (chars "abcdefghij")
    (by decide) (by decide) (by decide)

/-- Claim C2, counterexample.  The claim says a non-positive available
budget makes splitting fail with a capacity error without attempting any
split.  `ai_model.py`'s `ChunkManager.chunk_content` performs no such
check: with `MAX_TOKENS_PER_REQUEST = 300` the budget is −1, yet the
function-based strategy happily splits `"a\nb\nc"` into three chunks and
returns them without any error. -/
theorem C2_counterexample :
    availableTokens cfg300 tcHeuristic [] ≤ 0 ∧
    (chunk_content cfg300 tcHeuristic md5stub (chars "a\nb\nc") []
      ChunkStrategy.function_based).map List.length = some 3 :=
  ⟨by decide, rfl⟩

/-- Claim C2 (amended): the capacity check exists only in
`chunk_management.py`'s `ChunkManager.chunk_content`, and it does not raise:
when `max_tokens - tokens(context) - safety_buffer ≤ 0` it returns a failed
`ChunkResult` with the capacity error message and no chunks, before any
splitting strategy runs. -/
theorem C2_capacity_error_result (max_tokens safety_buffer : Int)
    (type_chunker : List Char → List Char → Int → ChunkMgmt.ChunkResult)
    (content context : List Char)
    (h : max_tokens - ChunkMgmt.count_tokens context - safety_buffer ≤ 0) :
    ChunkMgmt.chunk_content max_tokens safety_buffer type_chunker content context =
      { chunks := [], total_tokens := 0, strategy_used := "none", success := false,
        error_message := some ChunkMgmt.capacity_error_message } := by
  unfold ChunkMgmt.chunk_content
  rw [if_pos h]

/-- Claim C2, witness: the amended theorem applied to concrete settings
whose buffer exceeds the request budget. -/
theorem C2_capacity_error_result_witness :
    ChunkMgmt.chunk_content 10 200 (fun _ _ _ => ChunkMgmt.ChunkResult.mk [] 0 "x" true none)
      (chars "hello") [] =
      { chunks := [], total_tokens := 0, strategy_used := "none", success := false,
        error_message := some ChunkMgmt.capacity_error_message } :=
  C2_capacity_error_result 10 200 (fun _ _ _ => ChunkMgmt.ChunkResult.mk [] 0 "x" true none)
    (chars "hello") [] (by decide)

/-- Claim C3, counterexample.  The claim bounds the number of loop
iterations of `_token_based_chunking` by `ceil(len(content)/chunk_size_chars)`
for every input.  For `"a bcdefg"` (8 characters, cut width 3, bound
`ceil(8/3) = 3`) whitespace snapping shortens an iteration's advance to one
character: the loop does not finish within 3 iterations (fuel 3 returns
`none`) and in fact produces 4 chunks. -/
theorem C3_counterexample :
    chunkSizeNat tcHeuristic 1 (chars "a bcdefg") = 3 ∧
    ((chars "a bcdefg").length + 3 - 1) / 3 = 3 ∧
    tokenLoop md5stub 3 (overlapCharsNat tcHeuristic 100 (chars "a bcdefg"))
      (chars "a bcdefg") 3 0 [] = none ∧
    (token_based_chunking tcHeuristic md5stub 100 1 (chars "a bcdefg")).map
      List.length = some 4 :=
  ⟨rfl, rfl, rfl, rfl⟩

/-- Claim C3 (amended): whenever the computed cut width is at least one
character, the token-based loop terminates within `len(content)` iterations
(every iteration advances `start` past the snapped cut point by at least
one character); the claimed `ceil(len(content)/chunk_size_chars)` iteration
bound does hold for content containing no whitespace at all, where no
snapping ever occurs. -/
theorem C3_token_loop_terminates (md5 : List Char → String) (size oc : Nat)
    (content : List Char) (hsize : 1 ≤ size) :
    (∃ l, tokenLoop md5 size oc content content.length 0 [] = some l) ∧
    ((∀ c ∈ content, isPySpace c = false) →
      ∃ l, tokenLoop md5 size oc content ((content.length + size - 1) / size) 0 [] = some l) := by
  constructor
  · exact tokenLoop_terminates md5 size oc content hsize content.length 0 [] (by omega)
  · intro hws
    apply tokenLoop_noWs_bound md5 size oc content hws
    have := ceil_mul_ge content.length size hsize
    omega

/-- Claim C3, witness: both bounds applied to a concrete whitespace-free
content of four characters with cut width 2. -/
theorem C3_token_loop_terminates_witness :
    (∃ l, tokenLoop md5stub 2 0 (chars "abcd") (chars "abcd").length 0 [] = some l) ∧
    (∃ l, tokenLoop md5stub 2 0 (chars "abcd") (((chars "abcd").length + 2 - 1) / 2) 0 [] = some l) :=
  ⟨(C3_token_loop_terminates md5stub 2 0 (chars "abcd") (by decide)).1,
   (C3_token_loop_terminates md5stub 2 0 (chars "abcd") (by decide)).2 (by decide)⟩

/-- Claim C4, counterexample.  The claim says every split returns chunks
whose indices are exactly `0..n-1`, including semantic splits that delegate
oversized paragraphs to sentence-based chunking.  With budget 4, the
content `"Hi.\n\nabcdefghijk. bcdefghijkl."` makes the semantic strategy
save the first paragraph (index 0) and then extend with the sentence-based
chunks of the oversized second paragraph, whose indices restart at 0: the
returned indices are `[0, 0, 1]`, not `[0, 1, 2]`. -/
theorem C4_counterexample :
    (chunk_content cfg305 tcHeuristic md5stub
      (chars "Hi.\n\nabcdefghijk. bcdefghijkl.") []
      ChunkStrategy.semantic).map (fun l => l.map (fun c => c.chunk_index))
      = some [0, 0, 1] ∧
    ([0, 0, 1] : List Nat) ≠ [0, 1, 2] :=
  ⟨rfl, by decide⟩

/-- Claim C4 (amended): the chunk indices are exactly `0..n-1` for the
strategies that never delegate to another strategy — token-based and
function-based chunking — because each appends chunks with
`chunk_index = len(chunks)`; semantic and sentence-based splits that
delegate an oversized unit extend the list with the delegated chunks'
locally-numbered indices, which restart at 0. -/
theorem C4_indices_without_delegation (tc : List Char → Nat) (md5 : List Char → String)
    (chunk_overlap : Nat) (max_tokens : Int) (content : List Char) :
    (((token_based_chunking tc md5 chunk_overlap max_tokens content).getD []).map
        (fun c => c.chunk_index)
      = List.range ((token_based_chunking tc md5 chunk_overlap max_tokens content).getD []).length) ∧
    ((function_based_chunking tc md5 max_tokens content).map (fun c => c.chunk_index)
      = List.range (function_based_chunking tc md5 max_tokens content).length) := by
  constructor
  · cases h : token_based_chunking tc md5 chunk_overlap max_tokens content with
    | none => simp
    | some l =>
      simp only [Option.getD_some]
      exact tokenLoop_indices md5 (chunkSizeNat tc max_tokens content)
        (overlapCharsNat tc chunk_overlap content) content content.length 0 [] l rfl h
  · exact funLoop_indices tc md5 max_tokens
      (splitSeq (chars "\n") content) [] [] 0 false 0 rfl

/-- Claim C5 (confirmed): on a response list with at least one success and
at least one failure, paired with index-sorted chunks, `aggregate_responses`
reports overall success, sums `total_input_tokens` over all responses
(failed ones included), sums `total_output_tokens` over successes only, and
(for the token-based merge) concatenates exactly the successful responses'
stripped contents in ascending chunk-index order. -/
theorem C5_aggregate_mixed_responses (responses : List ModelResponse) (chunks : List ChunkContext)
    (strategy : ChunkStrategy)
    (hlen : responses.length ≤ chunks.length)
    (hsorted : chunks.Pairwise (fun a b => a.chunk_index ≤ b.chunk_index))
    (hsucc : ∃ r ∈ responses, r.success = true)
    (hfail : ∃ r ∈ responses, r.success = false) :
    (aggregate_responses responses chunks strategy).success = true ∧
    (aggregate_responses responses chunks strategy).total_input_tokens
      = (responses.map (fun r => r.input_tokens)).sum ∧
    (aggregate_responses responses chunks strategy).total_output_tokens
      = ((responses.filter (fun r => r.success)).map (fun r => r.output_tokens)).sum ∧
    (aggregate_responses responses chunks ChunkStrategy.token_based).content
      = joinSep (chars "\n")
          (((responses.filter (fun r => r.success)).map (fun r => pyStrip r.content)).filter
            (fun c => !c.isEmpty)) := by
  obtain ⟨rs, hrs, hrsucc⟩ := hsucc
  cases responses with
  | nil => simp at hrs
  | cons r0 rest =>
    have hne : ((r0 :: rest).filter (fun r => r.success)).isEmpty = false := by
      have hmem : rs ∈ (r0 :: rest).filter (fun r => r.success) :=
        List.mem_filter.mpr ⟨hrs, by simp [hrsucc]⟩
      rcases hfilter : (r0 :: rest).filter (fun r => r.success) with _ | ⟨a, as⟩
      · rw [hfilter] at hmem; simp at hmem
      · rw [hfilter]; rfl
    have hlen' : ((r0 :: rest).filter (fun r => r.success)).length ≤ chunks.length :=
      le_trans (List.length_filter_le _ _) hlen
    have hagg : ∀ strat, aggregate_responses (r0 :: rest) chunks strat =
        { content := merge_for_strategy strat ((r0 :: rest).filter (fun r => r.success)) chunks
          model := r0.model
          total_input_tokens := ((r0 :: rest).map (fun r => r.input_tokens)).sum
          total_output_tokens :=
            (((r0 :: rest).filter (fun r => r.success)).map (fun r => r.output_tokens)).sum
          total_response_time := ((r0 :: rest).map (fun r => r.response_time)).sum
          chunk_count := (r0 :: rest).length
          success := decide (((r0 :: rest).filter (fun r => r.success)).length > 0)
          failed_chunks := failedChunkIds (r0 :: rest) chunks } := by
      intro strat
      show (if ((r0 :: rest).filter (fun r => r.success)).isEmpty then _ else _) = _
      rw [if_neg (by simp [hne])]
    have hpos : 0 < ((r0 :: rest).filter (fun r => r.success)).length := by
      have hnil : (r0 :: rest).filter (fun r => r.success) ≠ [] := by
        intro h; rw [h] at hne; simp at hne
      exact List.length_pos.mpr hnil
    refine ⟨?_, ?_, ?_, ?_⟩
    · rw [hagg]
      simp only [decide_eq_true_eq]
      omega
    · rw [hagg]
    · rw [hagg]
    · rw [hagg]
      show merge_for_strategy ChunkStrategy.token_based ((r0 :: rest).filter (fun r => r.success)) chunks = _
      unfold merge_for_strategy
      exact merge_sequential_of_sorted _ chunks hlen' hsorted


/-- Claim C5, witness: the theorem applied to one failed and one successful
response over two index-sorted chunks. -/
theorem C5_aggregate_mixed_responses_witness :
    (aggregate_responses
      [{ content := chars "bad", model := "m", input_tokens := 7, output_tokens := 0,
         total_tokens := 7, response_time := 0, success := false },
       { content := chars "good", model := "m", input_tokens := 5, output_tokens := 3,
         total_tokens := 8, response_time := 0, success := true }]
      [{ chunk_id := "a", content := chars "x", chunk_index := 0, total_chunks := 2 },
       { chunk_id := "b", content := chars "y", chunk_index := 1, total_chunks := 2 }]
      ChunkStrategy.token_based).success = true ∧
    (aggregate_responses
      [{ content := chars "bad", model := "m", input_tokens := 7, output_tokens := 0,
         total_tokens := 7, response_time := 0, success := false },
       { content := chars "good", model := "m", input_tokens := 5, output_tokens := 3,
         total_tokens := 8, response_time := 0, success := true }]
      [{ chunk_id := "a", content := chars "x", chunk_index := 0, total_chunks := 2 },
       { chunk_id := "b", content := chars "y", chunk_index := 1, total_chunks := 2 }]
      ChunkStrategy.token_based).total_input_tokens = 12 ∧
    (aggregate_responses
      [{ content := chars "bad", model := "m", input_tokens := 7, output_tokens := 0,
         total_tokens := 7, response_time := 0, success := false },
       { content := chars "good", model := "m", input_tokens := 5, output_tokens := 3,
         total_tokens := 8, response_time := 0, success := true }]
      [{ chunk_id := "a", content := chars "x", chunk_index := 0, total_chunks := 2 },
       { chunk_id := "b", content := chars "y", chunk_index := 1, total_chunks := 2 }]
      ChunkStrategy.token_based).total_output_tokens = 3 ∧
    (aggregate_responses
      [{ content := chars "bad", model := "m", input_tokens := 7, output_tokens := 0,
         total_tokens := 7, response_time := 0, success := false },
       { content := chars "good", model := "m", input_tokens := 5, output_tokens := 3,
         total_tokens := 8, response_time := 0, success := true }]
      [{ chunk_id := "a", content := chars "x", chunk_index := 0, total_chunks := 2 },
       { chunk_id := "b", content := chars "y", chunk_index := 1, total_chunks := 2 }]
      ChunkStrategy.token_based).content = chars "good" := by
  have h := C5_aggregate_mixed_responses
    [{ content := chars "bad", model := "m", input_tokens := 7, output_tokens := 0,
       total_tokens := 7, response_time := 0, success := false },
     { content := chars "good", model := "m", input_tokens := 5, output_tokens := 3,
       total_tokens := 8, response_time := 0, success := true }]
    [{ chunk_id := "a", content := chars "x", chunk_index := 0, total_chunks := 2 },
     { chunk_id := "b", content := chars "y", chunk_index := 1, total_chunks := 2 }]
    ChunkStrategy.token_based (by decide) (by decide) (by decide) (by decide)
  obtain ⟨h1, h2, h3, h4⟩ := h
  refine ⟨h1, ?_, ?_, ?_⟩
  · rw [h2]; rfl
  · rw [h3]; rfl
  · rw [h4]; rfl

/-- Claim C6 (confirmed): `select_model` is a total function — the shallow
embedding has no failure path at all — and for every task type, health
predicate, content length and tool requirement it returns one of the
configured model identifiers, which is never the empty string.  This holds
in particular when every model is unhealthy (the walk falls back to the
first sorted candidate) and when the capability filter matches nothing
(the candidate set falls back to all of `MODEL_CONFIGS`). -/
theorem C6_select_model_total (health : String → Bool) (task_type : String)
    (content_length : Nat) (requires_tools : Bool) :
    select_model health task_type content_length requires_tools ∈ MODEL_CONFIGS.map Prod.fst ∧
    select_model health task_type content_length requires_tools ≠ "" :=
  ⟨select_model_mem health task_type content_length requires_tools,
   mem_model_configs_ne_empty _ (select_model_mem health task_type content_length requires_tools)⟩

/-- Claim C7 (confirmed): when every attempt of `_make_single_request`
raises, the returned response has `success = false` and its error string is
`"All {max_retries} attempts failed. Last error: ..."`, which mentions the
retry count; and when the first `max_retries - 1` attempts fail but the
final attempt returns a completion, the response has `success = true`. -/
theorem C7_make_single_request_retries (attempt : Nat → Except String AttemptSuccess)
    (model : String) (chunk : ChunkContext) (max_retries : Nat) :
    ((∀ i, i < max_retries → ∃ e, attempt i = Except.error e) →
      (make_single_request attempt model chunk max_retries).success = false ∧
      ∃ s, (make_single_request attempt model chunk max_retries).error
        = some ("All " ++ toString max_retries ++ " attempts failed. Last error: " ++ s)) ∧
    (∀ p, 0 < max_retries →
      (∀ i, i + 1 < max_retries → ∃ e, attempt i = Except.error e) →
      attempt (max_retries - 1) = Except.ok p →
      (make_single_request attempt model chunk max_retries).success = true) := by
  constructor
  · intro hfail
    exact make_single_request_go_all_fail attempt model chunk max_retries
      (List.range max_retries) none
      (fun i hi => hfail i (List.mem_range.mp hi))
  · intro p hpos hfail hok
    obtain ⟨k, hk⟩ : ∃ k, max_retries = k + 1 := ⟨max_retries - 1, by omega⟩
    unfold make_single_request
    rw [hk, List.range_succ]
    have hok' : attempt k = Except.ok p := by
      have : max_retries - 1 = k := by omega
      rw [this] at hok
      exact hok
    exact make_single_request_go_last_ok attempt model chunk (k + 1) k p hok'
      (List.range k) none
      (fun i hi => hfail i (by have := List.mem_range.mp hi; omega))

/-- Claim C7, witness: three always-failing attempts give `success = false`
with the retry count in the error; two failures followed by a success give
`success = true`. -/
theorem C7_make_single_request_retries_witness :
    ((make_single_request (fun _ => Except.error "timeout") "m"
        { chunk_id := "c0", content := [], chunk_index := 0, total_chunks := 1 } 3).success = false ∧
      ∃ s, (make_single_request (fun _ => Except.error "timeout") "m"
        { chunk_id := "c0", content := [], chunk_index := 0, total_chunks := 1 } 3).error
          = some ("All " ++ toString 3 ++ " attempts failed. Last error: " ++ s)) ∧
    (make_single_request
        (fun i => if i < 2 then Except.error "timeout" else Except.ok ⟨chars "ok", 4, 2⟩) "m"
        { chunk_id := "c0", content := [], chunk_index := 0, total_chunks := 1 } 3).success = true :=
  ⟨(C7_make_single_request_retries (fun _ => Except.error "timeout") "m"
      { chunk_id := "c0", content := [], chunk_index := 0, total_chunks := 1 } 3).1
      (fun i _ => ⟨"timeout", rfl⟩),
   (C7_make_single_request_retries
      (fun i => if i < 2 then Except.error "timeout" else Except.ok ⟨chars "ok", 4, 2⟩) "m"
      { chunk_id := "c0", content := [], chunk_index := 0, total_chunks := 1 } 3).2
      ⟨chars "ok", 4, 2⟩ (by decide)
      (fun i hi => ⟨"timeout", by have h2 : i < 2 := by omega
                                  simp [h2]⟩)
      rfl⟩

/-- Claim C8, counterexample.  The claim says an empty input produces zero
chunks.  `chunk_content` has no empty-input check and no trimming: with the
default settings an empty content counts one (heuristic) token, fits the
budget, and is returned as a single chunk with empty content — one chunk,
not zero. -/
theorem C8_counterexample :
    (chunk_content defaultSettings tcHeuristic md5stub [] [] ChunkStrategy.hybrid).map
      List.length = some 1 ∧
    (chunk_content defaultSettings tcHeuristic md5stub [] [] ChunkStrategy.hybrid).map
      List.length ≠ some 0 :=
  ⟨rfl, by decide⟩

/-- Claim C8 (amended): splitting an empty input produces exactly one chunk
whose content is empty (and `total_chunks = 1`), for every strategy and
every configuration whose available budget is at least the one token the
fallback heuristic assigns to the empty string; no error is signalled. -/
theorem C8_empty_input_single_chunk (cfg : Settings) (md5 : List Char → String)
    (context : List Char) (strategy : ChunkStrategy)
    (h : 1 ≤ availableTokens cfg tcHeuristic context) :
    chunk_content cfg tcHeuristic md5 [] context strategy =
      some [{ chunk_id := generate_chunk_id md5 [] 0, content := [],
              chunk_index := 0, total_chunks := 1 }] := by
  unfold chunk_content
  have h1 : tcHeuristic ([] : List Char) = 1 := rfl
  rw [if_pos (by rw [h1]; omega)]

/-- Claim C8, witness: the amended theorem at the default settings with an
empty context and the hybrid strategy. -/
theorem C8_empty_input_single_chunk_witness :
    chunk_content defaultSettings tcHeuristic md5stub [] [] ChunkStrategy.hybrid =
      some [{ chunk_id := generate_chunk_id md5stub [] 0, content := [],
              chunk_index := 0, total_chunks := 1 }] :=
  C8_empty_input_single_chunk defaultSettings md5stub [] ChunkStrategy.hybrid (by decide)

/-- Claim C9, counterexample.  The claim says the second chunk's
`overlap_content` equals the last sentence of chunk 1.  In the code the
overlap is recorded on the chunk being *saved* (the first), not on the
chunk that starts with the carried-over sentence: for three one-token
sentences and budget 2, the first chunk's `overlap_content` is `"Fghij."`
while the second chunk's `overlap_content` is empty. -/
theorem C9_counterexample :
    (chunk_content cfg303 tcHeuristic md5stub (chars "Abcde. Fghij. Klmno.") []
      ChunkStrategy.sentence_based).map (fun l => l.map (fun c => c.overlap_content))
      = some [chars "Fghij.", []] ∧
    ([] : List Char) ≠ chars "Fghij." :=
  ⟨rfl, by decide⟩

/-- Claim C9 (amended): for three short sentences with a budget fitting two
sentences per chunk, sentence-based splitting yields 2 chunks; the *first*
chunk's `overlap_content` equals its own last sentence (`"Fghij."`), the
second chunk's content begins with that carried-over sentence and its
`overlap_content` is empty; merging the two chunks' echoed contents with
the sentence-based merge de-duplicates the shared sentence, so the merged
text contains each sentence exactly once and equals the original content. -/
theorem C9_sentence_scenario :
    (chunk_content cfg303 tcHeuristic md5stub (chars "Abcde. Fghij. Klmno.") []
      ChunkStrategy.sentence_based).map
        (fun l => l.map (fun c => (c.content, c.overlap_content, c.chunk_index)))
      = some [(chars "Abcde. Fghij.", chars "Fghij.", 0),
              (chars "Fghij. Klmno.", [], 1)] ∧
    (chunk_content cfg303 tcHeuristic md5stub (chars "Abcde. Fghij. Klmno.") []
      ChunkStrategy.sentence_based).map
        (fun l => merge_text_responses (l.map echoResponse) l)
      = some (chars "Abcde. Fghij. Klmno.") ∧
    splitSentences (chars "Abcde. Fghij. Klmno.")
      = [chars "Abcde.", chars "Fghij.", chars "Klmno."] :=
  ⟨rfl, rfl, rfl⟩

/-- Claim C10 (confirmed): `generate_response` always returns a value — the
whole pipeline runs inside `try/except`.  Either the core pipeline succeeds
and its result is returned unchanged, or some stage (model selection,
chunking, single dispatch) raises, and the exception is converted into a
returned `ModelResponse` with `success = false`, empty content and the
exception message as its error field; exceptions inside concurrent chunk
dispatch are already converted per-chunk by
`process_chunks_concurrently` and never reach the `except` arm. -/
theorem C10_generate_response_never_raises (st : GenerateStages)
    (modelArg : Option String) (strategy : ChunkStrategy) :
    (∃ r, generate_response_core st modelArg strategy = Except.ok r ∧
      generate_response st modelArg strategy = r) ∨
    (∃ e, generate_response_core st modelArg strategy = Except.error e ∧
      generate_response st modelArg strategy
        = Sum.inl (error_model_response (fallback_model_name modelArg st.select) e) ∧
      (error_model_response (fallback_model_name modelArg st.select) e).success = false ∧
      (error_model_response (fallback_model_name modelArg st.select) e).content = [] ∧
      (error_model_response (fallback_model_name modelArg st.select) e).error = some e) := by
  cases h : generate_response_core st modelArg strategy with
  | ok r =>
    left
    refine ⟨r, rfl, ?_⟩
    unfold generate_response
    rw [h]
  | error e =>
    right
    refine ⟨e, rfl, ?_, rfl, rfl, rfl⟩
    unfold generate_response
    rw [h]
